import Mathlib

/-!
# The tool-calling conversation loop of `main.go`

A shallow embedding of `runChat` (main.go, lines 33-149) together with the two
tool functions `getWeather` and `getJoke` (lines 25-31).

`runChat` is a pair of nested `for` loops around three external collaborators:
the line scanner on standard input, the chat-completion client and
`json.Unmarshal`.  The embedding makes the loop a deterministic step function on
an explicit state:

* standard input is the sequence of strings returned by successive
  `scanner.Scan(); scanner.Text()` pairs (the code ignores the result of `Scan`,
  so at end of input it simply reads `""`);
* the client is a function of the number of calls made so far and of the
  `Messages` field of the request (every other field of the request is a
  constant of the program);
* the `Arguments` string of a function call is represented by the result of
  scanning it as JSON text (`none` when it is not well-formed JSON), and
  `json.Unmarshal` into a `map[string]string` is modelled on that tree.

`log.Fatalf` and the run-time panic of `resp.Choices[0]` on an empty slice are
explicit stopping phases.  The fields `calls` and `handlerCalls` of the state are
instrumentation: they count the client calls issued and record the tool
functions invoked.
-/

namespace Chat

/-! ## Tool functions (main.go, lines 24-31) -/

/-- The function getWeather of main.go: `fmt.Sprintf("The weather in %s is sunny.", location)`. -/
def getWeather (location : String) : String :=
  "The weather in " ++ location ++ " is sunny."

/-- The function getJoke of main.go:
`fmt.Sprintf("Why don't %s clouds ever break up? Because they always stick together!", weather)`. -/
def getJoke (weather : String) : String :=
  "Why don't " ++ weather ++ " clouds ever break up? Because they always stick together!"

/-! ## Data model -/

/-- A JSON text after scanning: the tree that `encoding/json` decodes from. -/
inductive JSON where
  | null : JSON
  | bool (b : Bool) : JSON
  | number (lexeme : String) : JSON
  | string (s : String) : JSON
  | array (elems : List JSON) : JSON
  | object (members : List (String × JSON)) : JSON

/-- The type openai.FunctionCall: the function name and the serialized arguments.
`Arguments` is `none` when the string is not well-formed JSON and `some v` when
it scans to the JSON value `v`. -/
structure FunctionCall where
  Name : String
  Arguments : Option JSON

/-- The fields of openai.ChatCompletionMessage that `runChat` reads or writes.
`FunctionCall` is a pointer in Go; `none` is `nil`. -/
structure ChatCompletionMessage where
  Role : String
  Content : String
  Name : String
  FunctionCall : Option FunctionCall

/-- The result pair `(resp, err)` of `client.CreateChatCompletion`: either a
non-nil error, or the messages of `resp.Choices`, in order. -/
inductive Response where
  | error (err : String) : Response
  | ok (choices : List ChatCompletionMessage) : Response

/-- A Go `map[string]string`, newest binding first. -/
abbrev StringMap := List (String × String)

/-- Indexing a Go map: the zero value `""` when the key is absent (also for a nil map). -/
def StringMap.index (m : StringMap) (key : String) : String :=
  (m.lookup key).getD ""

/-! ## `strings.ToLower` and `json.Unmarshal` -/

/-- The function strings.ToLower, on the characters `A`-`Z`.  Go lower-cases every
Unicode letter, but no character outside `E`, `N`, `D` has `e`, `n` or `d` as its
lower case, so the comparison with `"end"` at line 58 is the same. -/
def ToLower (s : String) : String :=
  ⟨s.data.map Char.toLower⟩

/-- Decoding one member value into the `string` element of the map: a JSON string
is stored, JSON `null` leaves the zero value, anything else is an
`UnmarshalTypeError`. -/
def decodeString : JSON → Except String String
  | .string s => .ok s
  | .null => .ok ""
  | .bool _ => .error "json: cannot unmarshal bool into Go value of type string"
  | .number _ => .error "json: cannot unmarshal number into Go value of type string"
  | .array _ => .error "json: cannot unmarshal array into Go value of type string"
  | .object _ => .error "json: cannot unmarshal object into Go value of type string"

/-- Decoding the members of a JSON object into the map, left to right; a later
duplicate key overrides an earlier one.  The first type error is the one
reported. -/
def decodeMembers : List (String × JSON) → StringMap → Except String StringMap
  | [], m => .ok m
  | (key, v) :: rest, m =>
    match decodeString v with
    | .error e => .error e
    | .ok s => decodeMembers rest ((key, s) :: m)

/-- The call `json.Unmarshal([]byte(Arguments), &args)` of line 117 with
`var args map[string]string`: a syntax error for text that is not JSON (its
wording depends on the text; one wording stands for all), the nil map for
`null`, the decoded members for an object, and an `UnmarshalTypeError` for any
other value. -/
def Unmarshal : Option JSON → Except String StringMap
  | none => .error "invalid character looking for beginning of value"
  | some .null => .ok []
  | some (.object members) => decodeMembers members []
  | some (.bool _) => .error "json: cannot unmarshal bool into Go value of type map[string]string"
  | some (.number _) => .error "json: cannot unmarshal number into Go value of type map[string]string"
  | some (.string _) => .error "json: cannot unmarshal string into Go value of type map[string]string"
  | some (.array _) => .error "json: cannot unmarshal array into Go value of type map[string]string"

/-! ## The state of `runChat` -/

/-- Where control stands in `runChat`. -/
inductive Phase where
  /-- At the top of the outer `for` (line 49): about to prompt and read a line. -/
  | awaitingInput : Phase
  /-- At the top of the inner `for` (line 69): about to call the client. -/
  | calling : Phase
  /-- After the `break` of line 60: `runChat` returns. -/
  | terminated : Phase
  /-- After `log.Fatalf` (lines 108 and 119): the process has exited. -/
  | fatal (msg : String) : Phase
  /-- After the index-out-of-range panic of `resp.Choices[0]` (line 111). -/
  | panicked : Phase
  deriving DecidableEq

/-- The variables of `runChat` together with the instrumentation. -/
structure State where
  /-- The variable `messages`: the transcript. -/
  messages : List ChatCompletionMessage
  phase : Phase
  /-- What has been written to standard output, one entry per print call. -/
  stdout : List String
  /-- How many lines the scanner has been asked for. -/
  linesRead : Nat
  /-- How many times `client.CreateChatCompletion` has been called. -/
  calls : Nat
  /-- The tool functions invoked so far, oldest first: function and argument. -/
  handlerCalls : List (String × String)

/-- The state at the first iteration of the outer loop (lines 44-47). -/
def init : State :=
  { messages := [{ Role := "system",
                   Content := "You are a helpful assistant. You can tell jokes about the weather.",
                   Name := "", FunctionCall := none }],
    phase := .awaitingInput, stdout := [], linesRead := 0, calls := 0, handlerCalls := [] }

/-! ## The loop bodies -/

/-- Lines 50-67: one pass through the head of the outer loop, given the text
returned by the scanner. -/
def awaitInput (s : State) (userInput : String) : State :=
  if ToLower userInput = "end" then
    { s with phase := .terminated,
             stdout := s.stdout ++ ["You: ", "Ending the chat. Goodbye!\n"],
             linesRead := s.linesRead + 1 }
  else
    { s with messages := s.messages ++
               [{ Role := "user", Content := userInput, Name := "", FunctionCall := none }],
             phase := .calling,
             stdout := s.stdout ++ ["You: "],
             linesRead := s.linesRead + 1 }

/-- Lines 122-140: the `switch functionName`, which has no `default` case. -/
def dispatch (s : State) (functionName : String) (args : StringMap) : State :=
  if functionName = "get_weather" then
    let location := args.index "location"
    let weather := getWeather location
    { s with messages := s.messages ++
               [{ Role := "function", Name := "get_weather", Content := weather,
                  FunctionCall := none }],
             handlerCalls := s.handlerCalls ++ [("getWeather", location)] }
  else if functionName = "get_joke" then
    let weather := args.index "weather"
    let joke := getJoke weather
    { s with messages := s.messages ++
               [{ Role := "function", Name := "get_joke", Content := joke,
                  FunctionCall := none }],
             handlerCalls := s.handlerCalls ++ [("getJoke", weather)] }
  else s

/-- Lines 70-146: one pass through the inner loop, given what the client
returned for the request built from `s.messages`. -/
def callModel (s : State) (resp : Response) : State :=
  let s := { s with calls := s.calls + 1 }
  match resp with
  | .error err => { s with phase := .fatal ("Error calling OpenAI API: " ++ err) }
  | .ok [] => { s with phase := .panicked }
  | .ok (message :: _) =>
    match message.FunctionCall with
    | some call =>
      match Unmarshal call.Arguments with
      | .error err => { s with phase := .fatal ("Error parsing function arguments: " ++ err) }
      | .ok args => dispatch s call.Name args
    | none =>
      { s with messages := s.messages ++ [message],
               stdout := s.stdout ++ ["Assistant: " ++ message.Content ++ "\n"],
               phase := .awaitingInput }

/-- Standard input: the text of the `i`-th line asked of the scanner. -/
abbrev Stdin := Nat → String

/-- The chat-completion client: the result of the `i`-th call, for the transcript sent. -/
abbrev Client := Nat → List ChatCompletionMessage → Response

/-- One step of `runChat`: a pass through the head of the outer loop or through
the inner loop; the three stopping phases do not move. -/
def step (stdin : Stdin) (client : Client) (s : State) : State :=
  match s.phase with
  | .awaitingInput => awaitInput s (stdin s.linesRead)
  | .calling => callModel s (client s.calls s.messages)
  | .terminated => s
  | .fatal _ => s
  | .panicked => s

/-- The state after `n` steps. -/
def run (stdin : Stdin) (client : Client) : Nat → State → State
  | 0, s => s
  | n + 1, s => run stdin client n (step stdin client s)

/-- The function runChat of main.go, observed after `n` steps. -/
def runChat (stdin : Stdin) (client : Client) (n : Nat) : State :=
  run stdin client n init

/-! ## Vocabulary of the statements -/

/-- The response carries a function-call request: its first choice has a non-nil
`FunctionCall`, here `call`, whose arguments decode to the map `args`. -/
def RequestsTool (r : Response) (call : FunctionCall) (args : StringMap) : Prop :=
  ∃ message rest, r = .ok (message :: rest) ∧ message.FunctionCall = some call ∧
    Unmarshal call.Arguments = .ok args

/-- The response is a final answer: its first choice is `m`, without a function call. -/
def FinalAnswer (r : Response) (m : ChatCompletionMessage) : Prop :=
  ∃ rest, r = .ok (m :: rest) ∧ m.FunctionCall = none

/-- The tool functions registered with the model (lines 74-103). -/
def Registered (name : String) : Prop :=
  name = "get_weather" ∨ name = "get_joke"

/-- The tool-role message that answers a request for a registered tool: the role
the API expects (`function`), the name of the tool, and the text the tool
function returns for the parameter the tool declares. -/
def toolResult (call : FunctionCall) (args : StringMap) : ChatCompletionMessage :=
  { Role := "function", Name := call.Name,
    Content := if call.Name = "get_weather" then getWeather (args.index "location")
               else getJoke (args.index "weather"),
    FunctionCall := none }

/-- The user-role message appended for the input line `text`. -/
def userMessage (text : String) : ChatCompletionMessage :=
  { Role := "user", Content := text, Name := "", FunctionCall := none }

/-- What the client returns to the call issued from the state reached after `n` steps. -/
def responseAt (stdin : Stdin) (client : Client) (n : Nat) (s : State) : Response :=
  client (run stdin client n s).calls (run stdin client n s).messages

/-- A phase from which `runChat` does not move. -/
def Phase.stopped : Phase → Bool
  | .awaitingInput => false
  | .calling => false
  | _ => true

/-- A member value that decodes into a Go string: a JSON string or `null`. -/
def memberDecodes : JSON → Bool
  | .string _ => true
  | .null => true
  | _ => false

/-- The arguments that decode into a `map[string]string`: `null`, or an object
all of whose member values are strings or `null`. -/
def decodes : Option JSON → Bool
  | some .null => true
  | some (.object members) => members.all (fun kv => memberDecodes kv.2)
  | _ => false

/-- Going back from a tool-role message over the messages before it (`earlier`,
nearest first) and past the tool-role ones, the first other message is an
assistant message that requests the function `name`. -/
def requestedBefore (name : String) : List ChatCompletionMessage → Bool
  | [] => false
  | m :: earlier =>
    if m.Role = "function" then requestedBefore name earlier
    else
      decide (m.Role = "assistant") &&
        match m.FunctionCall with
        | some call => decide (call.Name = name)
        | none => false

/-- Going back over the messages `earlier` (nearest first) and past the
tool-role ones, the first other message is a user-role message. -/
def followsUserInput : List ChatCompletionMessage → Bool
  | [] => false
  | m :: earlier =>
    if m.Role = "function" then followsUserInput earlier
    else decide (m.Role = "user")

/-- The shape of the transcripts of `runChat`, read from the newest message
back: no message carries a function call, and every tool-role message follows a
user-role message with only tool-role messages in between. -/
def WellFormed : List ChatCompletionMessage → Prop
  | [] => True
  | t :: earlier =>
    t.FunctionCall = none ∧ (t.Role = "function" → followsUserInput earlier = true) ∧
      WellFormed earlier

/-- The invariant of `runChat`: the transcript is well formed, and inside a turn
(at the head of the inner loop) the newest messages are the user input followed
by tool-role messages only. -/
def Invariant (s : State) : Prop :=
  WellFormed s.messages.reverse ∧
    (s.phase = .calling → followsUserInput s.messages.reverse = true)

/-! ## Sample responses and runs -/

/-- An assistant message that requests the function `name` with the given arguments. -/
def assistantRequest (name : String) (arguments : Option JSON) : ChatCompletionMessage :=
  { Role := "assistant", Content := "", Name := "", FunctionCall := some ⟨name, arguments⟩ }

/-- An assistant message that answers with `text`. -/
def assistantAnswer (text : String) : ChatCompletionMessage :=
  { Role := "assistant", Content := text, Name := "", FunctionCall := none }

/-- The JSON text `{"location": "Tokyo"}`. -/
def tokyoArguments : Option JSON :=
  some (.object [("location", .string "Tokyo")])

/-- A user who asks about Tokyo on every line. -/
def tokyoStdin : Stdin := fun _ => "What's the weather in Tokyo?"

/-- A model that asks for the weather in Tokyo on its first call and answers afterwards. -/
def tokyoClient : Client := fun i _ =>
  if i = 0 then .ok [assistantRequest "get_weather" tokyoArguments]
  else .ok [assistantAnswer "It is sunny in Tokyo."]

/-- A model whose function call carries text that is not JSON, on every call. -/
def malformedClient : Client := fun _ _ =>
  .ok [assistantRequest "get_weather" none]

/-- A model that asks for the time, with the arguments `{}`, on every call. -/
def timeClient : Client := fun _ _ =>
  .ok [assistantRequest "get_time" (some (.object []))]

/-- A model that asks for the news in Tokyo on every call. -/
def newsClient : Client := fun _ _ =>
  .ok [assistantRequest "get_news" tokyoArguments]

/-- A model that asks for the weather with the arguments `{}`, on every call. -/
def emptyArgumentsClient : Client := fun _ _ =>
  .ok [assistantRequest "get_weather" (some (.object []))]

/-- A model that asks for the weather in Tokyo on every call. -/
def insistentClient : Client := fun _ _ =>
  .ok [assistantRequest "get_weather" tokyoArguments]

/-- A model that asks for a joke with the arguments `["sunny"]`, an array, on every call. -/
def arrayArgumentsClient : Client := fun _ _ =>
  .ok [assistantRequest "get_joke" (some (.array [.string "sunny"]))]

/-- A final answer that the response labels with the role `developer`. -/
def developerAnswer : ChatCompletionMessage :=
  { Role := "developer", Content := "It is sunny in Tokyo.", Name := "", FunctionCall := none }

/-- A model whose every response is the final answer `developerAnswer`. -/
def developerClient : Client := fun _ _ =>
  .ok [developerAnswer]

/-- The state after the first user line of `tokyoStdin`, before the first call. -/
def firstCall : State :=
  awaitInput init (tokyoStdin 0)

/-! ## Basic facts about the machine -/

theorem run_succ (stdin : Stdin) (client : Client) (n : Nat) (s : State) :
    run stdin client (n + 1) s = step stdin client (run stdin client n s) := by
  induction n generalizing s with
  | zero => rfl
  | succ k ih =>
    show run stdin client (k + 1) (step stdin client s) = _
    rw [ih]
    rfl

theorem step_of_awaiting (stdin : Stdin) (client : Client) (s : State)
    (h : s.phase = .awaitingInput) :
    step stdin client s = awaitInput s (stdin s.linesRead) := by
  simp only [step, h]

theorem step_of_calling (stdin : Stdin) (client : Client) (s : State)
    (h : s.phase = .calling) :
    step stdin client s = callModel s (client s.calls s.messages) := by
  simp only [step, h]

theorem step_of_stopped (stdin : Stdin) (client : Client) (s : State)
    (h : s.phase.stopped = true) : step stdin client s = s := by
  unfold step
  cases hp : s.phase <;> simp_all [Phase.stopped]

theorem run_of_stopped (stdin : Stdin) (client : Client) (n : Nat) (s : State)
    (h : s.phase.stopped = true) : run stdin client n s = s := by
  induction n with
  | zero => rfl
  | succ k ih => rw [run_succ, ih, step_of_stopped stdin client s h]

theorem awaitInput_end (s : State) (userInput : String) (h : ToLower userInput = "end") :
    awaitInput s userInput =
      { s with phase := .terminated,
               stdout := s.stdout ++ ["You: ", "Ending the chat. Goodbye!\n"],
               linesRead := s.linesRead + 1 } := by
  simp [awaitInput, h]

theorem awaitInput_line (s : State) (userInput : String) (h : ToLower userInput ≠ "end") :
    awaitInput s userInput =
      { s with messages := s.messages ++ [userMessage userInput],
               phase := .calling,
               stdout := s.stdout ++ ["You: "],
               linesRead := s.linesRead + 1 } := by
  simp [awaitInput, h, userMessage]

theorem dispatch_messages (s : State) (call : FunctionCall) (args : StringMap) :
    (dispatch s call.Name args).messages =
      if call.Name = "get_weather" ∨ call.Name = "get_joke" then
        s.messages ++ [toolResult call args]
      else s.messages := by
  unfold dispatch toolResult
  by_cases h1 : call.Name = "get_weather"
  · simp [h1]
  · by_cases h2 : call.Name = "get_joke"
    · simp [h2]
    · simp [h1, h2]

theorem dispatch_phase (s : State) (name : String) (args : StringMap) :
    (dispatch s name args).phase = s.phase := by
  unfold dispatch
  split_ifs <;> rfl

theorem dispatch_calls (s : State) (name : String) (args : StringMap) :
    (dispatch s name args).calls = s.calls := by
  unfold dispatch
  split_ifs <;> rfl

theorem dispatch_stdout (s : State) (name : String) (args : StringMap) :
    (dispatch s name args).stdout = s.stdout := by
  unfold dispatch
  split_ifs <;> rfl

theorem callModel_request (s : State) (message : ChatCompletionMessage)
    (rest : List ChatCompletionMessage) (call : FunctionCall) (args : StringMap)
    (hcall : message.FunctionCall = some call) (hargs : Unmarshal call.Arguments = .ok args) :
    callModel s (.ok (message :: rest)) =
      dispatch { s with calls := s.calls + 1 } call.Name args := by
  simp only [callModel, hcall, hargs]

theorem callModel_unparsed (s : State) (message : ChatCompletionMessage)
    (rest : List ChatCompletionMessage) (call : FunctionCall) (err : String)
    (hcall : message.FunctionCall = some call) (hargs : Unmarshal call.Arguments = .error err) :
    callModel s (.ok (message :: rest)) =
      { s with calls := s.calls + 1,
               phase := .fatal ("Error parsing function arguments: " ++ err) } := by
  simp only [callModel, hcall, hargs]

theorem callModel_final (s : State) (message : ChatCompletionMessage)
    (rest : List ChatCompletionMessage) (hcall : message.FunctionCall = none) :
    callModel s (.ok (message :: rest)) =
      { s with calls := s.calls + 1,
               messages := s.messages ++ [message],
               stdout := s.stdout ++ ["Assistant: " ++ message.Content ++ "\n"],
               phase := .awaitingInput } := by
  simp only [callModel, hcall]

theorem awaitInput_extends (s : State) (userInput : String) :
    s.messages <+: (awaitInput s userInput).messages := by
  unfold awaitInput
  split_ifs
  · exact List.prefix_refl _
  · exact List.prefix_append _ _

theorem dispatch_extends (s : State) (name : String) (args : StringMap) :
    s.messages <+: (dispatch s name args).messages := by
  rw [dispatch_messages s ⟨name, none⟩ args]
  split_ifs
  · exact List.prefix_append _ _
  · exact List.prefix_refl _

theorem callModel_extends (s : State) (resp : Response) :
    s.messages <+: (callModel s resp).messages := by
  cases resp with
  | error err => exact List.prefix_refl _
  | ok choices =>
    cases choices with
    | nil => exact List.prefix_refl _
    | cons message rest =>
      cases hcall : message.FunctionCall with
      | none =>
        rw [callModel_final s message rest hcall]
        exact List.prefix_append _ _
      | some call =>
        cases hargs : Unmarshal call.Arguments with
        | error err =>
          rw [callModel_unparsed s message rest call err hcall hargs]
        | ok args =>
          rw [callModel_request s message rest call args hcall hargs]
          exact dispatch_extends { s with calls := s.calls + 1 } _ _

theorem step_extends (stdin : Stdin) (client : Client) (s : State) :
    s.messages <+: (step stdin client s).messages := by
  unfold step
  split
  · exact awaitInput_extends _ _
  · exact callModel_extends _ _
  · exact List.prefix_refl _
  · exact List.prefix_refl _
  · exact List.prefix_refl _

theorem run_extends (stdin : Stdin) (client : Client) (n : Nat) (s : State) :
    s.messages <+: (run stdin client n s).messages := by
  induction n with
  | zero => exact List.prefix_refl _
  | succ k ih =>
    rw [run_succ]
    exact List.IsPrefix.trans ih (step_extends _ _ _)

/-! ## The sentinel `end` -/

theorem toLower_eq_iff (c t u : Char) (ht : t.toLower = t) (hu : u.toLower = t)
    (hupper : ∀ n, 65 ≤ n → n ≤ 90 → Char.ofNat (n + 32) = t → Char.ofNat n = u)
    (hlow : ¬ (65 ≤ t.toNat ∧ t.toNat ≤ 90)) :
    c.toLower = t ↔ c = t ∨ c = u := by
  have hc := Char.ofNat_toNat c
  have hcases : c.toLower =
      if c.toNat ≥ 65 ∧ c.toNat ≤ 90 then Char.ofNat (c.toNat + 32) else c := rfl
  constructor
  · intro h
    rw [hcases] at h
    split_ifs at h with hr
    · exact Or.inr (hc ▸ hupper c.toNat hr.1 hr.2 h)
    · exact Or.inl h
  · rintro (rfl | rfl)
    · exact ht
    · exact hu

theorem toLower_e (c : Char) : c.toLower = 'e' ↔ c = 'e' ∨ c = 'E' := by
  refine toLower_eq_iff c 'e' 'E' (by decide) (by decide) ?_ (by decide)
  intro n h1 h2 h
  interval_cases n <;> first | (exact absurd h (by decide)) | rfl

theorem toLower_n (c : Char) : c.toLower = 'n' ↔ c = 'n' ∨ c = 'N' := by
  refine toLower_eq_iff c 'n' 'N' (by decide) (by decide) ?_ (by decide)
  intro n h1 h2 h
  interval_cases n <;> first | (exact absurd h (by decide)) | rfl

theorem toLower_d (c : Char) : c.toLower = 'd' ↔ c = 'd' ∨ c = 'D' := by
  refine toLower_eq_iff c 'd' 'D' (by decide) (by decide) ?_ (by decide)
  intro n h1 h2 h
  interval_cases n <;> first | (exact absurd h (by decide)) | rfl

/-- The lines that end the chat are the eight spellings of `end` in upper and
lower case, and no other. -/
theorem ToLower_eq_end_iff (u : String) :
    ToLower u = "end" ↔
      u ∈ ["end", "enD", "eNd", "eND", "End", "EnD", "ENd", "END"] := by
  constructor
  · intro h
    obtain ⟨l⟩ := u
    have hl : l.map Char.toLower = ['e', 'n', 'd'] := congrArg String.data h
    match l, hl with
    | [a, b, c], hl =>
      simp only [List.map_cons, List.map_nil, List.cons.injEq, and_true] at hl
      obtain ⟨ha, hb, hc⟩ := hl
      rcases (toLower_e a).mp ha with rfl | rfl <;>
      rcases (toLower_n b).mp hb with rfl | rfl <;>
      rcases (toLower_d c).mp hc with rfl | rfl <;> decide
    | [], hl => simp at hl
    | [_], hl => simp at hl
    | [_, _], hl => simp at hl
    | _ :: _ :: _ :: _ :: _, hl => simp at hl
  · intro h
    simp only [List.mem_cons, List.mem_singleton, List.not_mem_nil, or_false] at h
    rcases h with rfl | rfl | rfl | rfl | rfl | rfl | rfl | rfl <;> decide

/-- C1: when the line read at the head of the outer loop lower-cases to `end`, the
step ends the loop (phase `terminated`), leaves the transcript as it was, issues
no client call and invokes no tool, prints the prompt and the goodbye line, and
nothing happens afterwards: every later state is the same, so no client call is
ever issued.  The state is arbitrary, so this covers the first turn and any
later one. -/
theorem end_terminates_outer_loop (stdin : Stdin) (client : Client) (s : State) (n : Nat)
    (hphase : s.phase = .awaitingInput) (hend : ToLower (stdin s.linesRead) = "end") :
    (step stdin client s).phase = .terminated ∧
    (step stdin client s).messages = s.messages ∧
    (step stdin client s).calls = s.calls ∧
    (step stdin client s).handlerCalls = s.handlerCalls ∧
    (step stdin client s).stdout = s.stdout ++ ["You: ", "Ending the chat. Goodbye!\n"] ∧
    run stdin client n (step stdin client s) = step stdin client s := by
  rw [step_of_awaiting stdin client s hphase, awaitInput_end s _ hend]
  refine ⟨rfl, rfl, rfl, rfl, rfl, ?_⟩
  exact run_of_stopped stdin client n _ rfl

/-- C1, on the upper-case sentinel typed as the very first line. -/
theorem end_terminates_outer_loop_witness :
    ToLower "END" = "end" ∧ ToLower "End" = "end" ∧ ToLower "end" = "end" ∧
    (step (fun _ => "END") tokyoClient init).phase = .terminated ∧
    (step (fun _ => "END") tokyoClient init).messages = init.messages ∧
    (step (fun _ => "END") tokyoClient init).calls = 0 :=
  have h := end_terminates_outer_loop (fun _ => "END") tokyoClient init 0 rfl (by decide)
  ⟨by decide, by decide, by decide, h.1, h.2.1, h.2.2.1⟩

/-! ## The transcript only grows -/

/-- C2: the transcript is append-only.  The transcript before a pass through the
head of the outer loop, before a pass through the inner loop, before a step and
before any number of steps is a prefix of the transcript after it; and once a
line that is not the sentinel has been read, the transcript is strictly longer
at every later point of the run, in particular when the turn completes. -/
theorem transcript_append_only (stdin : Stdin) (client : Client) (s : State) (n : Nat) :
    (∀ userInput, s.messages <+: (awaitInput s userInput).messages) ∧
    (∀ resp, s.messages <+: (callModel s resp).messages) ∧
    s.messages <+: (step stdin client s).messages ∧
    s.messages <+: (run stdin client n s).messages ∧
    (s.phase = .awaitingInput → ToLower (stdin s.linesRead) ≠ "end" →
      s.messages.length < (run stdin client (n + 1) s).messages.length) := by
  refine ⟨awaitInput_extends s, callModel_extends s, step_extends _ _ _, run_extends _ _ _ _, ?_⟩
  intro hphase hline
  have h1 : (step stdin client s).messages.length = s.messages.length + 1 := by
    rw [step_of_awaiting stdin client s hphase, awaitInput_line s _ hline]
    simp
  have h2 := (run_extends stdin client n (step stdin client s)).length_le
  show s.messages.length < (run stdin client n (step stdin client s)).messages.length
  omega

/-- C2, on the Tokyo turn: after the three steps of the turn the transcript is longer. -/
theorem transcript_append_only_witness :
    init.messages.length < (run tokyoStdin tokyoClient 3 init).messages.length :=
  (transcript_append_only tokyoStdin tokyoClient init 2).2.2.2.2 rfl (by decide)

/-! ## Dispatching `get_weather` -/

/-- C5: when the response to the call carries a request for `get_weather` whose
arguments are the object with the single member `location` of value `L`, the
step appends exactly one message, of role `function`, name `get_weather` and
content `The weather in L is sunny.`, invokes `getWeather` on `L`, and is back at
the head of the inner loop. -/
theorem get_weather_is_dispatched (stdin : Stdin) (client : Client) (s : State)
    (message : ChatCompletionMessage) (rest : List ChatCompletionMessage) (L : String)
    (hphase : s.phase = .calling)
    (hresp : client s.calls s.messages = .ok (message :: rest))
    (hcall : message.FunctionCall =
      some ⟨"get_weather", some (.object [("location", .string L)])⟩) :
    (step stdin client s).messages = s.messages ++
      [{ Role := "function", Name := "get_weather",
         Content := "The weather in " ++ L ++ " is sunny.", FunctionCall := none }] ∧
    (step stdin client s).phase = .calling ∧
    (step stdin client s).handlerCalls = s.handlerCalls ++ [("getWeather", L)] := by
  have hargs : Unmarshal (FunctionCall.mk "get_weather"
      (some (.object [("location", .string L)]))).Arguments = .ok [("location", L)] := rfl
  rw [step_of_calling stdin client s hphase, hresp,
    callModel_request s message rest _ _ hcall hargs]
  simp [dispatch, StringMap.index, List.lookup, getWeather, hphase]

/-- C5, for Tokyo: the content is `The weather in Tokyo is sunny.`. -/
theorem get_weather_is_dispatched_witness :
    (step tokyoStdin tokyoClient firstCall).messages = firstCall.messages ++
      [{ Role := "function", Name := "get_weather",
         Content := "The weather in Tokyo is sunny.", FunctionCall := none }] ∧
    (step tokyoStdin tokyoClient firstCall).phase = .calling :=
  have h := get_weather_is_dispatched tokyoStdin tokyoClient firstCall
    (assistantRequest "get_weather" tokyoArguments) [] "Tokyo" rfl rfl rfl
  ⟨h.1, h.2.1⟩

/-! ## Arguments that do not parse -/

/-- C10: when the response carries a function call whose arguments
`json.Unmarshal` cannot decode into a `map[string]string`, the step stops the run
with the fatal message of line 119: no tool function is invoked, the transcript
is unchanged, and the run stays where it is, so the call that returned the
request is the last one. -/
theorem unparsed_arguments_are_fatal (stdin : Stdin) (client : Client) (s : State)
    (message : ChatCompletionMessage) (rest : List ChatCompletionMessage)
    (call : FunctionCall) (n : Nat)
    (hphase : s.phase = .calling)
    (hresp : client s.calls s.messages = .ok (message :: rest))
    (hcall : message.FunctionCall = some call)
    (hbad : ∀ args, Unmarshal call.Arguments ≠ .ok args) :
    (∃ err, (step stdin client s).phase =
      .fatal ("Error parsing function arguments: " ++ err)) ∧
    (step stdin client s).handlerCalls = s.handlerCalls ∧
    (step stdin client s).messages = s.messages ∧
    run stdin client n (step stdin client s) = step stdin client s ∧
    (run stdin client n (step stdin client s)).calls = s.calls + 1 := by
  cases hargs : Unmarshal call.Arguments with
  | ok args => exact absurd hargs (hbad args)
  | error err =>
    have hstep : step stdin client s =
        { s with calls := s.calls + 1,
                 phase := .fatal ("Error parsing function arguments: " ++ err) } := by
      rw [step_of_calling stdin client s hphase, hresp,
        callModel_unparsed s message rest call err hcall hargs]
    have hstop : run stdin client n (step stdin client s) = step stdin client s := by
      rw [hstep]
      exact run_of_stopped stdin client n _ rfl
    refine ⟨⟨err, by rw [hstep]⟩, by rw [hstep], by rw [hstep], hstop, ?_⟩
    rw [hstop, hstep]

/-- C10, on arguments that are not JSON: the run is stopped after the first call
and five steps later still has issued one call only. -/
theorem unparsed_arguments_are_fatal_witness :
    (step tokyoStdin malformedClient firstCall).messages = firstCall.messages ∧
    (run tokyoStdin malformedClient 5 (step tokyoStdin malformedClient firstCall)).calls = 1 :=
  have h := unparsed_arguments_are_fatal tokyoStdin malformedClient firstCall
    (assistantRequest "get_weather" none) [] ⟨"get_weather", none⟩ 5 rfl rfl rfl
    (by intro args h; cases h)
  ⟨h.2.2.1, h.2.2.2.2⟩

/-! ## Requests for a function that is not declared -/

theorem step_request (stdin : Stdin) (client : Client) (s : State)
    (call : FunctionCall) (args : StringMap)
    (hphase : s.phase = .calling)
    (hreq : RequestsTool (client s.calls s.messages) call args) :
    step stdin client s = dispatch { s with calls := s.calls + 1 } call.Name args := by
  obtain ⟨message, rest, hresp, hcall, hargs⟩ := hreq
  rw [step_of_calling stdin client s hphase, hresp,
    callModel_request s message rest call args hcall hargs]

/-- C3, as stated, fails: the request `get_time` with the arguments `{}`, which
parse (to the empty map), is answered by no message at all; the transcript is
unchanged and the loop is back at its head, about to issue the next call. -/
theorem unknown_request_gets_no_answer :
    Unmarshal (some (.object [])) = .ok [] ∧
    (step tokyoStdin timeClient firstCall).messages = firstCall.messages ∧
    (step tokyoStdin timeClient firstCall).phase = .calling ∧
    ¬ ∃ t, (step tokyoStdin timeClient firstCall).messages = firstCall.messages ++ [t] := by
  refine ⟨rfl, rfl, rfl, ?_⟩
  rintro ⟨t, ht⟩
  have hsame : (step tokyoStdin timeClient firstCall).messages = firstCall.messages := rfl
  rw [hsame] at ht
  simp at ht

/-- C3, amended: for a response that carries a request whose arguments parse, the
step returns to the head of the inner loop having issued one call; when the
function is `get_weather` or `get_joke` it has appended exactly one message, of
role `function` and of the requested name, and when it is any other function it
has appended nothing. -/
theorem request_is_answered_once_if_registered (stdin : Stdin) (client : Client) (s : State)
    (call : FunctionCall) (args : StringMap)
    (hphase : s.phase = .calling)
    (hreq : RequestsTool (client s.calls s.messages) call args) :
    (step stdin client s).phase = .calling ∧
    (step stdin client s).calls = s.calls + 1 ∧
    (Registered call.Name →
      ∃ t, (step stdin client s).messages = s.messages ++ [t] ∧
        t.Role = "function" ∧ t.Name = call.Name ∧ t = toolResult call args) ∧
    (¬ Registered call.Name → (step stdin client s).messages = s.messages) := by
  rw [step_request stdin client s call args hphase hreq]
  refine ⟨by rw [dispatch_phase]; exact hphase, by rw [dispatch_calls], ?_, ?_⟩
  · intro hreg
    refine ⟨toolResult call args, ?_, rfl, rfl, rfl⟩
    rw [dispatch_messages]
    exact if_pos hreg
  · intro hreg
    rw [dispatch_messages]
    exact if_neg hreg

/-- C3, amended, on the Tokyo request: one `get_weather` message is appended. -/
theorem request_is_answered_once_if_registered_witness :
    ∃ t, (step tokyoStdin insistentClient firstCall).messages = firstCall.messages ++ [t] ∧
      t.Role = "function" ∧ t.Name = "get_weather" ∧
      t = toolResult ⟨"get_weather", tokyoArguments⟩ [("location", "Tokyo")] :=
  (request_is_answered_once_if_registered tokyoStdin insistentClient firstCall
    ⟨"get_weather", tokyoArguments⟩ [("location", "Tokyo")] rfl
    ⟨_, [], rfl, rfl, rfl⟩).2.2.1 (Or.inl rfl)

/-- C8, as stated, fails: the request `get_news` names no declared function, yet
the step raises no error; it is back at the head of the inner loop with the
transcript unchanged, and the run goes on issuing calls. -/
theorem unknown_request_is_ignored :
    (step tokyoStdin newsClient firstCall).phase = .calling ∧
    (step tokyoStdin newsClient firstCall).messages = firstCall.messages ∧
    (step tokyoStdin newsClient firstCall).handlerCalls = [] ∧
    (run tokyoStdin newsClient 4 firstCall).phase = .calling ∧
    (run tokyoStdin newsClient 4 firstCall).calls = 4 := by
  refine ⟨rfl, rfl, rfl, rfl, rfl⟩

/-- C8, amended: a request whose function is neither `get_weather` nor `get_joke`
and whose arguments parse raises no error and is skipped: no tool function is
invoked, nothing is appended or printed, and the step is back at the head of the
inner loop, from where the next step issues the next call on the same
transcript. -/
theorem undeclared_function_is_skipped (stdin : Stdin) (client : Client) (s : State)
    (call : FunctionCall) (args : StringMap)
    (hphase : s.phase = .calling)
    (hreq : RequestsTool (client s.calls s.messages) call args)
    (hname : ¬ Registered call.Name) :
    step stdin client s = { s with calls := s.calls + 1 } ∧
    (step stdin client s).phase = .calling ∧
    step stdin client (step stdin client s) =
      callModel (step stdin client s) (client (s.calls + 1) s.messages) := by
  have h1 : call.Name ≠ "get_weather" := fun e => hname (Or.inl e)
  have h2 : call.Name ≠ "get_joke" := fun e => hname (Or.inr e)
  have hstep : step stdin client s = { s with calls := s.calls + 1 } := by
    rw [step_request stdin client s call args hphase hreq]
    simp [dispatch, h1, h2]
  refine ⟨hstep, by rw [hstep]; exact hphase, ?_⟩
  rw [step_of_calling stdin client (step stdin client s) (by rw [hstep]; exact hphase), hstep]

/-- C8, amended, on the request `get_news`. -/
theorem undeclared_function_is_skipped_witness :
    ¬ Registered "get_news" ∧
    step tokyoStdin newsClient firstCall = { firstCall with calls := 1 } :=
  ⟨by unfold Registered; decide,
   (undeclared_function_is_skipped tokyoStdin newsClient firstCall
     ⟨"get_news", tokyoArguments⟩ [("location", "Tokyo")] rfl ⟨_, [], rfl, rfl, rfl⟩
     (by unfold Registered; decide)).1⟩

/-! ## Arguments are decoded, not validated -/

theorem decodeString_of_not_memberDecodes (v : JSON) (h : memberDecodes v = false) :
    ∃ err, decodeString v = .error err := by
  cases v <;> simp_all [memberDecodes, decodeString]

theorem decodeString_of_memberDecodes (v : JSON) (h : memberDecodes v = true) :
    ∃ text, decodeString v = .ok text := by
  cases v <;> simp_all [memberDecodes, decodeString]

theorem decodeMembers_of_all (members : List (String × JSON)) (m : StringMap)
    (h : members.all (fun kv => memberDecodes kv.2) = true) :
    ∃ m', decodeMembers members m = .ok m' ∧
      ∀ key, (∀ kv ∈ members, kv.1 ≠ key) → m'.lookup key = m.lookup key := by
  induction members generalizing m with
  | nil => exact ⟨m, rfl, fun _ _ => rfl⟩
  | cons kv rest ih =>
    obtain ⟨k, v⟩ := kv
    rw [List.all_cons, Bool.and_eq_true] at h
    obtain ⟨text, htext⟩ := decodeString_of_memberDecodes v h.1
    obtain ⟨m', hm', hlookup⟩ := ih ((k, text) :: m) h.2
    refine ⟨m', ?_, ?_⟩
    · simp only [decodeMembers, htext]
      exact hm'
    · intro key hkey
      rw [hlookup key (fun kv hkv => hkey kv (List.mem_cons_of_mem _ hkv))]
      have hk : key ≠ k := fun e => hkey (k, v) (List.mem_cons_self _ _) e.symm
      have hbeq : (key == k) = false := by simpa using hk
      simp only [List.lookup, hbeq]

theorem decodeMembers_of_not_all (members : List (String × JSON)) (m : StringMap)
    (h : members.all (fun kv => memberDecodes kv.2) = false) :
    ∃ err, decodeMembers members m = .error err := by
  induction members generalizing m with
  | nil => simp at h
  | cons kv rest ih =>
    obtain ⟨k, v⟩ := kv
    rw [List.all_cons, Bool.and_eq_false_iff] at h
    cases hv : memberDecodes v with
    | false =>
      obtain ⟨err, herr⟩ := decodeString_of_not_memberDecodes v hv
      exact ⟨err, by simp only [decodeMembers, herr]⟩
    | true =>
      obtain ⟨text, htext⟩ := decodeString_of_memberDecodes v hv
      have hrest : rest.all (fun kv => memberDecodes kv.2) = false := by
        rcases h with h | h
        · simp [hv] at h
        · exact h
      obtain ⟨err, herr⟩ := ih ((k, text) :: m) hrest
      exact ⟨err, by simp only [decodeMembers, htext]; exact herr⟩

theorem Unmarshal_of_not_decodes (raw : Option JSON) (h : decodes raw = false) :
    ∃ err, Unmarshal raw = .error err := by
  cases raw with
  | none => exact ⟨_, rfl⟩
  | some v =>
    cases v with
    | null => simp [decodes] at h
    | object members => exact decodeMembers_of_not_all members [] h
    | bool b => exact ⟨_, rfl⟩
    | number x => exact ⟨_, rfl⟩
    | string x => exact ⟨_, rfl⟩
    | array x => exact ⟨_, rfl⟩

theorem Unmarshal_object_missing (members : List (String × JSON)) (key : String)
    (hall : members.all (fun kv => memberDecodes kv.2) = true)
    (hmissing : ∀ kv ∈ members, kv.1 ≠ key) :
    ∃ args, Unmarshal (some (.object members)) = .ok args ∧ StringMap.index args key = "" := by
  obtain ⟨m', hm', hlookup⟩ := decodeMembers_of_all members [] hall
  refine ⟨m', hm', ?_⟩
  unfold StringMap.index
  rw [hlookup key hmissing]
  rfl

/-- C7, as stated, fails: `get_weather` requested with the arguments `{}` lacks
the required parameter `location`, yet the step does not fail: `getWeather` is
invoked on the empty string and its result is appended to the transcript. -/
theorem missing_required_parameter_is_accepted :
    (step tokyoStdin emptyArgumentsClient firstCall).phase = .calling ∧
    (step tokyoStdin emptyArgumentsClient firstCall).handlerCalls = [("getWeather", "")] ∧
    (step tokyoStdin emptyArgumentsClient firstCall).messages = firstCall.messages ++
      [{ Role := "function", Name := "get_weather",
         Content := "The weather in  is sunny.", FunctionCall := none }] ∧
    (step tokyoStdin emptyArgumentsClient firstCall).messages ≠ firstCall.messages := by
  refine ⟨rfl, rfl, rfl, ?_⟩
  intro h
  have hlen := congrArg List.length h
  have hstep : (step tokyoStdin emptyArgumentsClient firstCall).messages.length = 3 := rfl
  have hfirst : firstCall.messages.length = 2 := rfl
  omega

/-- C7, amended: arguments are decoded, not validated against the declared
schema.  When the arguments do not decode into a `map[string]string` (text that
is not JSON, a value that is neither an object nor `null`, or an object with a
member that is neither a string nor `null`), the step stops the run with the
argument-parse message, invokes no tool function and leaves the transcript
unchanged.  When they are an object that decodes but lacks the parameter the
tool declares as required, the tool function is invoked on the empty string and
its result is appended. -/
theorem arguments_are_decoded_not_validated (stdin : Stdin) (client : Client) (s : State)
    (message : ChatCompletionMessage) (rest : List ChatCompletionMessage) (call : FunctionCall)
    (hphase : s.phase = .calling)
    (hresp : client s.calls s.messages = .ok (message :: rest))
    (hcall : message.FunctionCall = some call) :
    (decodes call.Arguments = false →
      (∃ err, (step stdin client s).phase =
        .fatal ("Error parsing function arguments: " ++ err)) ∧
      (step stdin client s).handlerCalls = s.handlerCalls ∧
      (step stdin client s).messages = s.messages) ∧
    (∀ members, call.Arguments = some (.object members) →
      members.all (fun kv => memberDecodes kv.2) = true →
      (call.Name = "get_weather" → (∀ kv ∈ members, kv.1 ≠ "location") →
        (step stdin client s).phase = .calling ∧
        (step stdin client s).handlerCalls = s.handlerCalls ++ [("getWeather", "")] ∧
        (step stdin client s).messages = s.messages ++
          [{ Role := "function", Name := "get_weather", Content := getWeather "",
             FunctionCall := none }]) ∧
      (call.Name = "get_joke" → (∀ kv ∈ members, kv.1 ≠ "weather") →
        (step stdin client s).phase = .calling ∧
        (step stdin client s).handlerCalls = s.handlerCalls ++ [("getJoke", "")] ∧
        (step stdin client s).messages = s.messages ++
          [{ Role := "function", Name := "get_joke", Content := getJoke "",
             FunctionCall := none }])) := by
  refine ⟨?_, ?_⟩
  · intro hbad
    obtain ⟨err, herr⟩ := Unmarshal_of_not_decodes call.Arguments hbad
    rw [step_of_calling stdin client s hphase, hresp,
      callModel_unparsed s message rest call err hcall herr]
    exact ⟨⟨err, rfl⟩, rfl, rfl⟩
  · intro members hargs hall
    refine ⟨?_, ?_⟩
    · intro hname hmissing
      obtain ⟨args, hok, hindex⟩ := Unmarshal_object_missing members "location" hall hmissing
      rw [← hargs] at hok
      rw [step_of_calling stdin client s hphase, hresp,
        callModel_request s message rest call args hcall hok]
      simp [dispatch, hname, hindex, hphase]
    · intro hname hmissing
      obtain ⟨args, hok, hindex⟩ := Unmarshal_object_missing members "weather" hall hmissing
      rw [← hargs] at hok
      rw [step_of_calling stdin client s hphase, hresp,
        callModel_request s message rest call args hcall hok]
      simp [dispatch, hname, hindex, hphase]

/-- C7, amended, on arguments that are an array: the run is stopped and the
transcript is unchanged. -/
theorem arguments_are_decoded_not_validated_witness :
    decodes (some (.array [.string "sunny"])) = false ∧
    (step tokyoStdin arrayArgumentsClient firstCall).handlerCalls = [] ∧
    (step tokyoStdin arrayArgumentsClient firstCall).messages = firstCall.messages :=
  have h := (arguments_are_decoded_not_validated tokyoStdin arrayArgumentsClient firstCall
    (assistantRequest "get_joke" (some (.array [.string "sunny"]))) []
    ⟨"get_joke", some (.array [.string "sunny"])⟩ rfl rfl rfl).1 rfl
  ⟨rfl, h.2.1, h.2.2⟩

/-! ## A model that never answers -/

/-- C9, as stated, fails: `malformedClient` returns a function-call request on
every call, yet the inner loop stops at the first one, on the fatal parse error,
and ten steps later still has issued a single call. -/
theorem requests_that_do_not_parse_stop_the_loop :
    (∀ i T, ∃ message rest call, malformedClient i T = .ok (message :: rest) ∧
      message.FunctionCall = some call) ∧
    (step tokyoStdin malformedClient firstCall).phase.stopped = true ∧
    (run tokyoStdin malformedClient 10 firstCall).phase.stopped = true ∧
    (run tokyoStdin malformedClient 10 firstCall).calls = 1 := by
  refine ⟨fun _ _ => ⟨_, [], _, rfl, rfl⟩, rfl, rfl, rfl⟩

/-- C9, amended: when the model returns on every call a function-call request
whose arguments parse (whatever the function), the inner loop never stops: from
the head of the inner loop, after `n` steps the run has issued `n` calls and is
again at the head of the inner loop, about to issue the next one. -/
theorem inner_loop_is_unbounded (stdin : Stdin) (client : Client) (s : State) (n : Nat)
    (hphase : s.phase = .calling)
    (hmodel : ∀ i T, ∃ call args, RequestsTool (client i T) call args) :
    (run stdin client n s).phase = .calling ∧
    (run stdin client n s).calls = s.calls + n := by
  induction n with
  | zero => exact ⟨hphase, rfl⟩
  | succ k ih =>
    obtain ⟨call, args, hreq⟩ :=
      hmodel (run stdin client k s).calls (run stdin client k s).messages
    rw [run_succ, step_request stdin client _ call args ih.1 hreq, dispatch_phase,
      dispatch_calls]
    exact ⟨ih.1, by rw [ih.2]; rfl⟩

/-- C9, amended, on the model that asks for the weather in Tokyo on every call:
after seven steps, seven calls, and the loop goes on. -/
theorem inner_loop_is_unbounded_witness :
    (run tokyoStdin insistentClient 7 firstCall).phase = .calling ∧
    (run tokyoStdin insistentClient 7 firstCall).calls = 0 + 7 :=
  inner_loop_is_unbounded tokyoStdin insistentClient firstCall 7 rfl
    (fun _ _ => ⟨⟨"get_weather", tokyoArguments⟩, [("location", "Tokyo")], _, [], rfl, rfl, rfl⟩)

/-! ## The shape of the transcript -/

theorem Invariant_init : Invariant init := by
  refine ⟨⟨rfl, ?_, trivial⟩, ?_⟩
  · intro h
    exact absurd h (by decide)
  · intro h
    exact absurd h (by decide)

theorem Invariant_append (s : State) (t : ChatCompletionMessage) (p : Phase)
    (hinv : Invariant s)
    (hcall : t.FunctionCall = none)
    (hrole : t.Role = "function" → s.phase = .calling)
    (hnext : p = .calling → t.Role = "user" ∨ (t.Role = "function" ∧ s.phase = .calling))
    (s' : State) (hmessages : s'.messages = s.messages ++ [t]) (hp : s'.phase = p) :
    Invariant s' := by
  unfold Invariant
  rw [hmessages, hp, List.reverse_append, List.reverse_singleton, List.singleton_append]
  refine ⟨⟨hcall, fun h => hinv.2 (hrole h), hinv.1⟩, ?_⟩
  intro hcalling
  rcases hnext hcalling with huser | ⟨hfun, hwas⟩
  · have hne : t.Role ≠ "function" := by rw [huser]; decide
    simp [followsUserInput, hne, huser]
  · simp only [followsUserInput, hfun, if_true]
    exact hinv.2 hwas

theorem Invariant_same (s s' : State) (hinv : Invariant s)
    (hmessages : s'.messages = s.messages)
    (hp : s'.phase = .calling → s.phase = .calling) : Invariant s' := by
  unfold Invariant
  rw [hmessages]
  exact ⟨hinv.1, fun h => hinv.2 (hp h)⟩

theorem Invariant_awaitInput (s : State) (userInput : String) (hinv : Invariant s) :
    Invariant (awaitInput s userInput) := by
  by_cases hend : ToLower userInput = "end"
  · rw [awaitInput_end s userInput hend]
    exact Invariant_same s _ hinv rfl (fun h => by cases h)
  · rw [awaitInput_line s userInput hend]
    exact Invariant_append s (userMessage userInput) .calling hinv rfl
      (fun h => absurd (show "user" = "function" from h) (by decide))
      (fun _ => Or.inl rfl) _ rfl rfl

theorem Invariant_dispatch (s : State) (call : FunctionCall) (args : StringMap)
    (hinv : Invariant s) (hphase : s.phase = .calling) :
    Invariant (dispatch s call.Name args) := by
  by_cases hreg : call.Name = "get_weather" ∨ call.Name = "get_joke"
  · refine Invariant_append s (toolResult call args) .calling hinv rfl (fun _ => hphase)
      (fun _ => Or.inr ⟨rfl, hphase⟩) _ ?_ ?_
    · rw [dispatch_messages, if_pos hreg]
    · rw [dispatch_phase, hphase]
  · refine Invariant_same s _ hinv ?_ ?_
    · rw [dispatch_messages, if_neg hreg]
    · intro _
      exact hphase

theorem Invariant_callModel (s : State) (resp : Response) (hinv : Invariant s)
    (hphase : s.phase = .calling) : Invariant (callModel s resp) := by
  cases resp with
  | error err => exact Invariant_same s _ hinv rfl (fun h => by cases h)
  | ok choices =>
    cases choices with
    | nil => exact Invariant_same s _ hinv rfl (fun h => by cases h)
    | cons message rest =>
      cases hcall : message.FunctionCall with
      | none =>
        rw [callModel_final s message rest hcall]
        exact Invariant_append s message .awaitingInput hinv hcall (fun _ => hphase)
          (fun h => by cases h) _ rfl rfl
      | some call =>
        cases hargs : Unmarshal call.Arguments with
        | error err =>
          rw [callModel_unparsed s message rest call err hcall hargs]
          exact Invariant_same s _ hinv rfl (fun h => by cases h)
        | ok args =>
          rw [callModel_request s message rest call args hcall hargs]
          exact Invariant_dispatch _ call args (Invariant_same s _ hinv rfl (fun _ => hphase))
            hphase

theorem Invariant_step (stdin : Stdin) (client : Client) (s : State) (hinv : Invariant s) :
    Invariant (step stdin client s) := by
  cases hphase : s.phase with
  | awaitingInput =>
    rw [step_of_awaiting stdin client s hphase]
    exact Invariant_awaitInput s _ hinv
  | calling =>
    rw [step_of_calling stdin client s hphase]
    exact Invariant_callModel s _ hinv hphase
  | terminated => rw [step_of_stopped stdin client s (by rw [hphase]; rfl)]; exact hinv
  | fatal msg => rw [step_of_stopped stdin client s (by rw [hphase]; rfl)]; exact hinv
  | panicked => rw [step_of_stopped stdin client s (by rw [hphase]; rfl)]; exact hinv

theorem Invariant_run (stdin : Stdin) (client : Client) (n : Nat) (s : State)
    (hinv : Invariant s) : Invariant (run stdin client n s) := by
  induction n with
  | zero => exact hinv
  | succ k ih =>
    rw [run_succ]
    exact Invariant_step stdin client _ ih

theorem WellFormed_of_append (newer older : List ChatCompletionMessage)
    (h : WellFormed (newer ++ older)) : WellFormed older := by
  induction newer with
  | nil => exact h
  | cons t rest ih => exact ih h.2.2

theorem WellFormed_no_call (l : List ChatCompletionMessage) (h : WellFormed l) :
    ∀ m ∈ l, m.FunctionCall = none := by
  induction l with
  | nil => intro m hm; cases hm
  | cons t rest ih =>
    intro m hm
    rcases List.mem_cons.mp hm with rfl | hm
    · exact h.1
    · exact ih h.2.2 m hm

theorem requestedBefore_of_no_call (name : String) (l : List ChatCompletionMessage)
    (h : ∀ m ∈ l, m.FunctionCall = none) : requestedBefore name l = false := by
  induction l with
  | nil => rfl
  | cons t rest ih =>
    have ht : t.FunctionCall = none := h t (List.mem_cons_self _ _)
    have hrest := ih (fun m hm => h m (List.mem_cons_of_mem _ hm))
    unfold requestedBefore
    split_ifs
    · exact hrest
    · simp [ht]

/-- C4, as stated, fails: after the user line and a `get_weather` request the
transcript is the system message, the user message and the tool-role message;
the message before the tool-role one is the user's, and no assistant message
requesting `get_weather` precedes it. -/
theorem tool_message_without_request :
    (runChat tokyoStdin tokyoClient 2).messages =
      init.messages ++ [userMessage "What's the weather in Tokyo?",
        { Role := "function", Name := "get_weather",
          Content := "The weather in Tokyo is sunny.", FunctionCall := none }] ∧
    requestedBefore "get_weather"
      (init.messages ++ [userMessage "What's the weather in Tokyo?"]).reverse = false := by
  refine ⟨rfl, ?_⟩
  decide

/-- C4, amended: in the transcript after any number of steps of `runChat`, for
any input lines and any client, no message carries a function-call request (the
assistant message that requests a tool is never stored), and every tool-role
message is preceded, with only tool-role messages in between, by a user-role
message, not by an assistant message requesting the tool. -/
theorem tool_messages_follow_user_input (stdin : Stdin) (client : Client) (n : Nat)
    (before after : List ChatCompletionMessage) (t : ChatCompletionMessage)
    (hsplit : (runChat stdin client n).messages = before ++ t :: after) :
    t.FunctionCall = none ∧
    (t.Role = "function" →
      followsUserInput before.reverse = true ∧
      requestedBefore t.Name before.reverse = false) := by
  have hinv := (Invariant_run stdin client n init Invariant_init).1
  unfold runChat at hsplit
  rw [hsplit, List.reverse_append, List.reverse_cons, List.append_assoc,
    List.singleton_append] at hinv
  have ht := WellFormed_of_append _ _ hinv
  refine ⟨ht.1, fun hrole => ⟨ht.2.1 hrole, ?_⟩⟩
  exact requestedBefore_of_no_call _ _ (WellFormed_no_call _ ht.2.2)

/-- C4, amended, on the Tokyo turn: the tool-role message follows the user message. -/
theorem tool_messages_follow_user_input_witness :
    followsUserInput
      (init.messages ++ [userMessage "What's the weather in Tokyo?"]).reverse = true ∧
    requestedBefore "get_weather"
      (init.messages ++ [userMessage "What's the weather in Tokyo?"]).reverse = false :=
  (tool_messages_follow_user_input tokyoStdin tokyoClient 3
    (init.messages ++ [userMessage "What's the weather in Tokyo?"])
    [assistantAnswer "It is sunny in Tokyo."]
    { Role := "function", Name := "get_weather",
      Content := "The weather in Tokyo is sunny.", FunctionCall := none } rfl).2 rfl

/-! ## A whole turn -/

theorem turn_progress (stdin : Stdin) (client : Client) (s : State) (k : Nat)
    (call : Nat → FunctionCall) (args : Nat → StringMap)
    (hphase : s.phase = .awaitingInput)
    (hline : ToLower (stdin s.linesRead) ≠ "end")
    (hcalls : ∀ i, i < k →
      RequestsTool (responseAt stdin client (i + 1) s) (call i) (args i) ∧
      Registered (call i).Name) :
    ∀ j, j ≤ k →
      (run stdin client (j + 1) s).messages =
        s.messages ++ [userMessage (stdin s.linesRead)] ++
          (List.range j).map (fun i => toolResult (call i) (args i)) ∧
      (run stdin client (j + 1) s).phase = .calling ∧
      (run stdin client (j + 1) s).stdout = s.stdout ++ ["You: "] ∧
      (run stdin client (j + 1) s).calls = s.calls + j := by
  intro j
  induction j with
  | zero =>
    intro _
    have h1 : run stdin client 1 s = step stdin client s := rfl
    rw [h1, step_of_awaiting stdin client s hphase, awaitInput_line s _ hline]
    simp
  | succ j ih =>
    intro hj
    obtain ⟨hm, hp, hout, hc⟩ := ih (by omega)
    obtain ⟨hreq, hreg⟩ := hcalls j (by omega)
    rw [run_succ, step_request stdin client _ (call j) (args j) hp hreq]
    refine ⟨?_, ?_, ?_, ?_⟩
    · rw [dispatch_messages]
      rw [List.range_succ, List.map_append, ← List.append_assoc, ← hm]
      exact if_pos hreg
    · rw [dispatch_phase]
      exact hp
    · rw [dispatch_stdout]
      exact hout
    · rw [dispatch_calls]
      show (run stdin client (j + 1) s).calls + 1 = s.calls + (j + 1)
      omega

/-- C6, as stated, fails: the role of the final message is not a result of the
turn.  For a turn without tool calls whose final answer carries the role
`developer` and no function call, the transcript after the turn is the old one,
the user message and that answer, stored as it came: the last message of the
transcript is not an assistant-role message. -/
theorem final_answer_keeps_its_role :
    ToLower (tokyoStdin init.linesRead) ≠ "end" ∧
    FinalAnswer (responseAt tokyoStdin developerClient 1 init) developerAnswer ∧
    (run tokyoStdin developerClient 2 init).messages =
      init.messages ++ [userMessage "What's the weather in Tokyo?"] ++ [developerAnswer] ∧
    (run tokyoStdin developerClient 2 init).phase = .awaitingInput ∧
    (run tokyoStdin developerClient 2 init).messages.getLast?.map (fun t => t.Role) =
      some "developer" ∧
    (run tokyoStdin developerClient 2 init).messages.getLast?.map (fun t => t.Role) ≠
      some "assistant" := by
  refine ⟨by decide, ⟨[], rfl, rfl⟩, rfl, rfl, rfl, ?_⟩
  have hlast : (run tokyoStdin developerClient 2 init).messages.getLast?.map
      (fun t => t.Role) = some "developer" := rfl
  rw [hlast]
  decide

/-- C6, amended: a whole turn.  From the head of the outer loop, for a line that is
not the sentinel, when the first `k` responses of the turn carry requests for
`get_weather` or `get_joke` whose arguments parse and the next response is a
final answer `m` (a message without a function call, of whatever role), the
state after the `k + 2` steps of the turn is back at the head of the outer loop;
its transcript is the old one, then the user message, then the `k` tool-role
results in call order, then `m`, stored as the response carries it, so the
transcript ends with `m` and the role of its last message is the role of `m`;
what the turn has printed is the prompt and the line `Assistant: ` followed by
the content of `m`; and the turn has issued `k + 1` calls. -/
theorem turn_transcript (stdin : Stdin) (client : Client) (s : State) (k : Nat)
    (call : Nat → FunctionCall) (args : Nat → StringMap) (m : ChatCompletionMessage)
    (hphase : s.phase = .awaitingInput)
    (hline : ToLower (stdin s.linesRead) ≠ "end")
    (hcalls : ∀ i, i < k →
      RequestsTool (responseAt stdin client (i + 1) s) (call i) (args i) ∧
      Registered (call i).Name)
    (hfinal : FinalAnswer (responseAt stdin client (k + 1) s) m) :
    (run stdin client (k + 2) s).messages =
      s.messages ++ [userMessage (stdin s.linesRead)] ++
        (List.range k).map (fun i => toolResult (call i) (args i)) ++ [m] ∧
    (run stdin client (k + 2) s).phase = .awaitingInput ∧
    (run stdin client (k + 2) s).stdout =
      s.stdout ++ ["You: ", "Assistant: " ++ m.Content ++ "\n"] ∧
    (run stdin client (k + 2) s).calls = s.calls + k + 1 ∧
    (run stdin client (k + 2) s).messages.getLast? = some m ∧
    (run stdin client (k + 2) s).messages.getLast?.map (fun t => t.Role) =
      some m.Role := by
  obtain ⟨hm, hp, hout, hc⟩ :=
    turn_progress stdin client s k call args hphase hline hcalls k (le_refl k)
  obtain ⟨rest, hresp, hcall⟩ := hfinal
  have hstep : run stdin client (k + 2) s =
      callModel (run stdin client (k + 1) s) (.ok (m :: rest)) := by
    rw [run_succ, step_of_calling stdin client _ hp]
    exact congrArg _ hresp
  rw [hstep, callModel_final _ m rest hcall]
  refine ⟨?_, rfl, ?_, ?_, ?_, ?_⟩
  · show (run stdin client (k + 1) s).messages ++ [m] = _
    rw [hm]
  · show (run stdin client (k + 1) s).stdout ++ _ = _
    rw [hout]
    simp
  · show (run stdin client (k + 1) s).calls + 1 = _
    rw [hc]
  · show ((run stdin client (k + 1) s).messages ++ [m]).getLast? = _
    simp
  · show ((run stdin client (k + 1) s).messages ++ [m]).getLast?.map _ = _
    simp

/-- C6, amended, on the Tokyo turn: one `get_weather` request, then the answer. -/
theorem turn_transcript_witness :
    (run tokyoStdin tokyoClient 3 init).messages =
      init.messages ++ [userMessage "What's the weather in Tokyo?"] ++
        [{ Role := "function", Name := "get_weather",
           Content := "The weather in Tokyo is sunny.", FunctionCall := none }] ++
        [assistantAnswer "It is sunny in Tokyo."] ∧
    (run tokyoStdin tokyoClient 3 init).phase = .awaitingInput ∧
    (run tokyoStdin tokyoClient 3 init).stdout =
      ["You: ", "Assistant: It is sunny in Tokyo.\n"] ∧
    (run tokyoStdin tokyoClient 3 init).messages.getLast? =
      some (assistantAnswer "It is sunny in Tokyo.") :=
  have h := turn_transcript tokyoStdin tokyoClient init 1
    (fun _ => ⟨"get_weather", tokyoArguments⟩) (fun _ => [("location", "Tokyo")])
    (assistantAnswer "It is sunny in Tokyo.") rfl (by decide)
    (fun i hi => by
      have hi0 : i = 0 := by omega
      subst hi0
      exact ⟨⟨_, [], rfl, rfl, rfl⟩, Or.inl rfl⟩)
    ⟨[], rfl, rfl⟩
  ⟨h.1, h.2.1, h.2.2.1, h.2.2.2.2.1⟩

end Chat
